import Mathlib

/-!
Verification of the UML-enhancing tool (parser, FCA analyzer, abstraction
synthesizer, generator) against its natural-language specification.

The Python sources are shallowly embedded: strings are modeled as `List Char`
(so that all definitions compute by structural recursion), Python `dict`s as
association lists, Python `set`s as duplicate-free lists built by
insert-if-absent folds (Python set enumeration order is unspecified; the fold
order is our deterministic rendering), floats as exact rationals, and code
that can raise as `Except String`.
-/

/-! ## String utilities (Python `str` operations on `List Char`) -/

def toL (s : String) : List Char := s.toList

/-- Python whitespace, as stripped by `str.strip()` and matched by `\s`. -/
def pyWS (c : Char) : Bool :=
  c = ' ' ∨ c = '\t' ∨ c = '\n' ∨ c = '\r' ∨ c = '\x0b' ∨ c = '\x0c'

/-- Python regex `\w` character class (ASCII reading). -/
def isWordChar (c : Char) : Bool := c.isAlphanum || c = '_'

/-- Python `str.strip()`. -/
def trimL (l : List Char) : List Char :=
  ((l.dropWhile pyWS).reverse.dropWhile pyWS).reverse

/-- Worker for `splitOnL`: `skip` counts pattern characters still to be
consumed after a match was found (keeps the recursion structural). -/
def splitGo (pat : List Char) : List Char → Nat → List Char → List (List Char)
  | [], _, acc => [acc.reverse]
  | _ :: cs, skip + 1, acc => splitGo pat cs skip acc
  | c :: cs, 0, acc =>
    if pat ≠ [] ∧ pat.isPrefixOf (c :: cs) then
      acc.reverse :: splitGo pat cs (pat.length - 1) []
    else splitGo pat cs 0 (c :: acc)

/-- Python `str.split(sep)` for a non-empty separator: leftmost,
non-overlapping occurrences. -/
def splitOnL (pat l : List Char) : List (List Char) := splitGo pat l 0 []

/-- Python `pat in s` (substring containment): equivalent to
`len(s.split(pat)) >= 2` for non-empty `pat`. -/
def containsSub (pat l : List Char) : Bool := (splitOnL pat l).length ≥ 2

/-- Python `str.replace(pat, "")`: remove all occurrences. -/
def removeAll (pat l : List Char) : List Char := (splitOnL pat l).foldr (· ++ ·) []

/-- Worker for `tokens`. -/
def tokensGo : List Char → List Char → List (List Char)
  | [], acc => if acc.isEmpty then [] else [acc.reverse]
  | c :: cs, acc =>
    if pyWS c then
      if acc.isEmpty then tokensGo cs [] else acc.reverse :: tokensGo cs []
    else tokensGo cs (c :: acc)

/-- Python `str.split()` with no argument: whitespace-separated tokens,
empty tokens discarded. -/
def tokens (l : List Char) : List (List Char) := tokensGo l []

instance {ε α : Type} [DecidableEq ε] [DecidableEq α] : DecidableEq (Except ε α) := fun a b =>
  match a, b with
  | .ok x, .ok y => if h : x = y then .isTrue (by rw [h]) else .isFalse (by simp [h])
  | .error x, .error y => if h : x = y then .isTrue (by rw [h]) else .isFalse (by simp [h])
  | .ok _, .error _ => .isFalse (by simp)
  | .error _, .ok _ => .isFalse (by simp)

/-! ## Parser data model (`src/parser/__init__.py`) -/

/-- `UMLClass` dataclass: name, attribute lines, method lines, stereotypes
(`__post_init__` turns the default `None` into `[]`). -/
structure UMLClass where
  name : String
  attributes : List String
  methods : List String
  stereotypes : List String
deriving DecidableEq, Repr

/-- `UMLRelationship` dataclass. -/
structure UMLRelationship where
  source : String
  target : String
  relationship_type : String
  cardinality_source : Option String := none
  cardinality_target : Option String := none
  label : Option String := none
deriving DecidableEq, Repr

/-- The dictionary `self.classes` and the list `self.relationships` returned
by `PlantUMLParser.parse`. The dict is an association list: Python dicts keep
insertion order and key assignment overwrites in place. -/
structure ParseResult where
  classes : List (String × UMLClass)
  relationships : List UMLRelationship
deriving DecidableEq, Repr

/-- Python `d[k] = v` on an insertion-ordered dict. -/
def dictSet (k : String) (v : UMLClass) : List (String × UMLClass) → List (String × UMLClass)
  | [] => [(k, v)]
  | (k2, v2) :: rest => if k2 = k then (k, v) :: rest else (k2, v2) :: dictSet k v rest

/-- In-place update of the value stored under `k` (used for
`self.classes[name].attributes.append(...)`; the key is always present when
the source reaches this operation). -/
def dictModify (k : String) (f : UMLClass → UMLClass) :
    List (String × UMLClass) → List (String × UMLClass)
  | [] => []
  | (k2, v2) :: rest => if k2 = k then (k2, f v2) :: rest else (k2, v2) :: dictModify k f rest

/-- `PlantUMLParser._parse_class_declaration`:
`parts = line.replace("class ", "").replace("{", "").strip().split()`,
then `parts[0]` (an `IndexError` when `parts` is empty) names a fresh
`UMLClass` stored in the dict. -/
def parse_class_declaration (line : List Char) (classes : List (String × UMLClass)) :
    Except String (String × List (String × UMLClass)) :=
  match tokens (trimL (removeAll (toL "\x7b") (removeAll (toL "class ") line))) with
  | [] => .error "list index out of range"
  | p :: _ =>
    let class_name : String := ⟨p⟩
    .ok (class_name, dictSet class_name ⟨class_name, [], [], []⟩ classes)

/-- `PlantUMLParser._parse_class_member`: a line containing `(` is appended
to the methods of the current class, otherwise to its attributes. -/
def parse_class_member (class_name : String) (line : List Char)
    (classes : List (String × UMLClass)) : List (String × UMLClass) :=
  if containsSub (toL "(") line then
    dictModify class_name (fun c => { c with methods := c.methods ++ [⟨line⟩] }) classes
  else
    dictModify class_name (fun c => { c with attributes := c.attributes ++ [⟨line⟩] }) classes

/-- Whether the text starts with a whitespace character. -/
def headWS (l : List Char) : Bool :=
  match l with
  | c :: _ => pyWS c
  | [] => false

/-- Whether the text starts with a `\w` character. -/
def headWord (l : List Char) : Bool :=
  match l with
  | c :: _ => isWordChar c
  | [] => false

/-- Semantics of `re.match(r'(\w+)(?:\s+"([^"]+)")?', source_part)`: the match
succeeds exactly when the text starts with a `\w` character; group 1 is the
maximal word-character run, group 2 the optional quoted cardinality (at least
one whitespace, a quote, a non-empty quote-free run, a closing quote). -/
def matchSourceSide (s : List Char) : Option (String × Option String) :=
  match s with
  | [] => none
  | c :: _ =>
    if isWordChar c then
      let nameRun := s.takeWhile isWordChar
      let rest := s.dropWhile isWordChar
      let rest2 := rest.dropWhile pyWS
      let card :=
        if headWS rest ∧ rest2.head? = some '"' then
          let inner := (rest2.drop 1).takeWhile (· ≠ '"')
          let after := (rest2.drop 1).dropWhile (· ≠ '"')
          if inner ≠ [] ∧ after ≠ [] then some (⟨inner⟩ : String) else none
        else none
      some (⟨nameRun⟩, card)
    else none

/-- Semantics of the optional label group `(?:\s*:\s*(?:"([^"]+)"|(.+)))?`
applied to the text following the target name: group 3 is a quoted label,
group 4 the greedy unquoted remainder (when only whitespace follows the
colon, backtracking of `\s*` leaves a single whitespace character to `.+`).
Returns the raw group text, before `str.strip()`. -/
def matchLabel (rest : List Char) : Option String :=
  match rest.dropWhile pyWS with
  | ':' :: b =>
    let b1 := b.dropWhile pyWS
    if b1.head? = some '"' then
      let inner := (b1.drop 1).takeWhile (· ≠ '"')
      let after := (b1.drop 1).dropWhile (· ≠ '"')
      if inner ≠ [] ∧ after ≠ [] then some ⟨inner⟩ else some ⟨b1⟩
    else if b1 ≠ [] then some ⟨b1⟩
    else
      match b.getLast? with
      | some c => some ⟨[c]⟩
      | none => none
  | _ => none

/-- Semantics of
`re.match(r'(?:"([^"]+)"\s+)?(\w+)(?:\s*:\s*(?:"([^"]+)"|(.+)))?', target_part)`:
optional quoted cardinality (which, when the text starts with a quote, must be
followed by whitespace and a word character, otherwise the whole match fails),
the target name as the maximal word run, and the optional label. -/
def matchTargetSide (t : List Char) : Option (Option String × String × Option String) :=
  if t.head? = some '"' then
    let inner := (t.drop 1).takeWhile (· ≠ '"')
    let after := (t.drop 1).dropWhile (· ≠ '"')
    if inner ≠ [] ∧ after ≠ [] then
      let after2 := after.drop 1
      let after3 := after2.dropWhile pyWS
      if headWS after2 ∧ headWord after3 then
        let nameRun := after3.takeWhile isWordChar
        let rest := after3.dropWhile isWordChar
        some (some ⟨inner⟩, ⟨nameRun⟩, matchLabel rest)
      else none
    else none
  else
    match t with
    | [] => none
    | c :: _ =>
      if isWordChar c then
        let nameRun := t.takeWhile isWordChar
        let rest := t.dropWhile isWordChar
        some (none, ⟨nameRun⟩, matchLabel rest)
      else none

/-- Python `str.strip()` on a `String`. -/
def pyStrip (s : String) : String := ⟨trimL s.toList⟩

/-- Source side of `_parse_relationship`: regex match, else
`source_part.split()[0]` (an `IndexError` on a whitespace-only side). -/
def parseSource (source_part : List Char) : Except String (String × Option String) :=
  match matchSourceSide source_part with
  | some (nm, card) => .ok (nm, card)
  | none =>
    match tokens source_part with
    | [] => .error "list index out of range"
    | t :: _ => .ok (⟨t⟩, none)

/-- Target side of `_parse_relationship`: regex match (label stripped when
present, per `if label: label = label.strip()`), else
`target_part.split()[0]` with no cardinality and no label. -/
def parseTarget (target_part : List Char) :
    Except String (Option String × String × Option String) :=
  match matchTargetSide target_part with
  | some (card, nm, lbl) => .ok (card, nm, lbl.map pyStrip)
  | none =>
    match tokens target_part with
    | [] => .error "list index out of range"
    | t :: _ => .ok (none, ⟨t⟩, none)

/-- The fixed ordered table of `(rel_type, symbol)` pairs scanned by
`_parse_relationship`. -/
def relationship_symbols : List (String × List Char) :=
  [("inheritance", toL "--|>"), ("inheritance", toL "<|--"),
   ("composition", toL "--*"), ("composition", toL "*--"),
   ("aggregation", toL "--o"), ("aggregation", toL "o--"),
   ("association", toL "-->"), ("association", toL "<--"),
   ("association", toL "--")]

/-- Body executed for a matching symbol: strip the two sides, parse them,
build the `UMLRelationship`. -/
def buildRelationship (rel_type : String) (p0 p1 : List Char) :
    Except String UMLRelationship :=
  match parseSource (trimL p0) with
  | .error e => .error e
  | .ok (source, cardinality_source) =>
    match parseTarget (trimL p1) with
    | .error e => .error e
    | .ok (cardinality_target, target, label) =>
      .ok ⟨source, target, rel_type, cardinality_source, cardinality_target, label⟩

/-- The symbol loop of `_parse_relationship`: `if symbol in line:` then
`parts = line.split(symbol)`; only when `len(parts) == 2` is a relationship
built (followed by `break`); otherwise the loop continues with the next
symbol. A symbol is in the line iff the split has at least two parts, so
both conditions collapse into the `[p0, p1]` pattern. -/
def tryRelationshipSymbols :
    List (String × List Char) → List Char → Except String (Option UMLRelationship)
  | [], _ => .ok none
  | (rel_type, symbol) :: rest, line =>
    match splitOnL symbol line with
    | [p0, p1] => (buildRelationship rel_type p0 p1).map some
    | _ => tryRelationshipSymbols rest line

/-- `PlantUMLParser._parse_relationship`. -/
def parse_relationship (line : List Char) : Except String (Option UMLRelationship) :=
  tryRelationshipSymbols relationship_symbols line

/-- The containment test of the `elif any(rel in line for rel in [...])`
branch of `parse` (note: a different symbol list than the classification
table). -/
def relContainsAny (line : List Char) : Bool :=
  [toL "--|>", toL "--*", toL "--o", toL "--", toL "<|--", toL "*--", toL "o--"].any
    (fun s => containsSub s line)

/-- The line loop of `PlantUMLParser.parse`, threading the classes dict, the
relationships list and the `current_class` cursor. -/
def parseLinesGo : List (List Char) → List (String × UMLClass) → List UMLRelationship →
    Option String → Except String ParseResult
  | [], classes, rels, _ => .ok ⟨classes, rels⟩
  | rawLine :: rest, classes, rels, current_class =>
    let line := trimL rawLine
    if line.isEmpty ∨ line.head? = some '\x27' ∨ line.head? = some '@' then
      parseLinesGo rest classes rels current_class
    else if (toL "class ").isPrefixOf line then
      match parse_class_declaration line classes with
      | .error e => .error e
      | .ok (nm, classes2) => parseLinesGo rest classes2 rels (some nm)
    else if line = toL "\x7d" then
      parseLinesGo rest classes rels none
    else if h : current_class.isSome ∧
        (line.head? = some '+' ∨ line.head? = some '-' ∨ line.head? = some '#') then
      parseLinesGo rest (parse_class_member (current_class.get h.1) line classes) rels
        current_class
    else if relContainsAny line then
      match parse_relationship line with
      | .error e => .error e
      | .ok none => parseLinesGo rest classes rels current_class
      | .ok (some r) => parseLinesGo rest classes (rels ++ [r]) current_class
    else
      parseLinesGo rest classes rels current_class

/-- `PlantUMLParser.parse`: strip the content, split into lines, scan. -/
def parse (plantuml_content : List Char) : Except String ParseResult :=
  parseLinesGo (splitOnL (toL "\n") (trimL plantuml_content)) [] [] none

/-! ## FCA analyzer (`src/fca_analyzer/__init__.py`) -/

/-- `FormalConcept` dataclass. `extent` and `intent` are Python sets, modeled
as duplicate-free lists; the float score is modeled as an exact rational. -/
structure FormalConcept where
  extent : List String
  intent : List String
  relevance_score : ℚ := 0
deriving DecidableEq, Repr

/-- The `FCAAnalyzer` object state: the FCA4J path and the stored concepts. -/
structure FCAAnalyzer where
  fca4j_path : String
  concepts : List FormalConcept
deriving DecidableEq, Repr

/-- `FCAAnalyzer._calculate_relevance_scores`: on a non-empty batch, each
concept gets `extent_score * intent_score * 100` where `extent_score` is
`len(extent) / max_extent` guarded by `max_extent > 0` (likewise for
intents); an empty batch is returned unchanged. -/
def calculate_relevance_scores (concepts : List FormalConcept) : List FormalConcept :=
  if concepts.isEmpty then concepts
  else
    let max_extent : ℕ := (concepts.map (fun c => c.extent.length)).max?.getD 0
    let max_intent : ℕ := (concepts.map (fun c => c.intent.length)).max?.getD 0
    concepts.map fun c =>
      let extent_score : ℚ := if max_extent > 0 then (c.extent.length : ℚ) / (max_extent : ℚ) else 0
      let intent_score : ℚ := if max_intent > 0 then (c.intent.length : ℚ) / (max_intent : ℚ) else 0
      { c with relevance_score := extent_score * intent_score * 100 }

/-- `FCAAnalyzer.filter_relevant_concepts`: a list comprehension over the
stored concepts; the method reads `self.concepts` and assigns nothing, so the
returned pair carries the result list and the unchanged object state. -/
def filter_relevant_concepts (self : FCAAnalyzer) (min_relevance : ℚ)
    (min_extent_size : ℕ) : List FormalConcept × FCAAnalyzer :=
  ((self.concepts.filter fun c =>
      decide (min_relevance ≤ c.relevance_score) && decide (min_extent_size ≤ c.extent.length)),
   self)

/-- Python `set.add` on a list-modeled set: append when absent. -/
def setAdd (x : String) (l : List String) : List String :=
  if x ∈ l then l else l ++ [x]

/-- Cell lookup `row.get(key)` for a `csv.DictReader` row: the keys are the
header fields, the values the corresponding cells of the data row. -/
def rowGet (header row : List String) (key : String) : Option String :=
  match header, row with
  | [], _ => none
  | _, [] => none
  | h :: hs, v :: vs => if h = key then some v else rowGet hs vs key

/-- `FCAAnalyzer._fallback_fca_analysis`, reading the context CSV (modeled as
its rows of cells; the first row is the `csv.DictReader` header). After the
empty-file and empty-rows early returns, `objects = [row["object"] for row in
rows]` raises `KeyError` unless `object` is among the header fields; then one
concept per non-`object` column collects the rows whose cell is the string
`True` or `1`, kept only when non-empty. -/
def fallback_fca_analysis (csvRows : List (List String)) :
    Except String (List FormalConcept) :=
  match csvRows with
  | [] => .ok []
  | header :: dataRows =>
    if dataRows.isEmpty then .ok []
    else if "object" ∈ header then
      let attributes := header.filter (fun k => k ≠ "object")
      .ok (attributes.filterMap fun attr =>
        let extent := dataRows.foldl (fun acc row =>
          if rowGet header row attr = some "True" ∨ rowGet header row attr = some "1" then
            match rowGet header row "object" with
            | some obj => setAdd obj acc
            | none => acc
          else acc) []
        if extent.isEmpty then none else some ⟨extent, [attr], 0⟩)
    else .error "KeyError: object"

/-! ## Knowledge-graph export (`src/knowledge_graph/__init__.py`) -/

/-- Lexicographic code-point comparison on char lists (strict). -/
def lexLt : List Char → List Char → Bool
  | [], [] => false
  | [], _ :: _ => true
  | _ :: _, [] => false
  | a :: as, b :: bs => if a < b then true else if a = b then lexLt as bs else false

/-- Python string `<=`, used by `sorted`. -/
def pyStrLe (a b : String) : Bool := a = b || lexLt a.toList b.toList

/-- Stable insertion into an ascending list (equal keys keep arrival order). -/
def insertSortedStr (x : String) : List String → List String
  | [] => [x]
  | y :: ys => if pyStrLe x y ∧ x ≠ y then x :: y :: ys else y :: insertSortedStr x ys

/-- Python `sorted` on strings. -/
def pySorted (l : List String) : List String := l.foldr insertSortedStr []

/-- The attribute∪method feature set of one class, as collected from the
graph neighbors of its class node (they are exactly the attribute and method
nodes created for it by `from_uml_model`). -/
def classFeatures (c : UMLClass) : List String := c.attributes ++ c.methods

/-- `KnowledgeGraph.export_for_fca`, at the level of the rows it writes: the
graph contains one class node per parsed class, one node per attribute and
method; the export writes (when there is at least one class and one feature)
a header whose first cell is empty followed by the sorted features, then one
row per sorted class name with `"X"` for a present feature and `""`
otherwise. -/
def export_for_fca (classes : List (String × UMLClass)) : List (List String) :=
  let features := pySorted ((classes.foldl (fun acc p =>
    (classFeatures p.2).foldl (fun a f => setAdd f a) acc) []))
  let names := pySorted (classes.map (fun p => p.1))
  if classes.isEmpty ∨ features.isEmpty then []
  else
    ("" :: features) ::
      names.map (fun n =>
        let feats := ((classes.find? (fun p => p.1 = n)).map (fun p => classFeatures p.2)).getD []
        n :: features.map (fun f => if f ∈ feats then "X" else ""))

/-! ## Abstraction synthesis (`src/llm_naming/__init__.py`,
`src/pipeline/__init__.py`) -/

/-- `AbstractClass` dataclass (`src/llm_naming/__init__.py`): extent, intent,
suggested name (initially `None`), confidence and the FCA relevance score,
both defaulting to `0.0`. -/
structure AbstractClass where
  extent : List String
  intent : List String
  suggested_name : Option String := none
  confidence : ℚ := 0
  relevance_score : ℚ := 0
deriving DecidableEq, Repr

/-- `UMLEnhancementPipeline._step_create_abstract_classes`: one
`AbstractClass(extent=list(concept.extent), intent=list(concept.intent))` per
concept; every other field keeps its dataclass default. -/
def create_abstract_classes (concepts : List FormalConcept) : List AbstractClass :=
  concepts.map fun concept => { extent := concept.extent, intent := concept.intent }

/-- The subset test `abstract_intent.issubset(class_features)` of the
expansion pass. -/
def intentSubsetOf (intent : List String) (c : UMLClass) : Bool :=
  intent.all (fun f => f ∈ classFeatures c)

/-- One iteration of `_expand_abstract_class_extents` for a single candidate:
the membership test uses the extent as snapshotted before the loop, and every
qualifying class name is appended. -/
def expandOne (all_classes : List (String × UMLClass)) (ac : AbstractClass) : AbstractClass :=
  { ac with
    extent := ac.extent ++
      (all_classes.filter (fun p => p.1 ∉ ac.extent ∧ intentSubsetOf ac.intent p.2)).map
        (fun p => p.1) }

/-- `UMLEnhancementPipeline._expand_abstract_class_extents`: each candidate is
expanded in place over the full class dict. -/
def expand_abstract_class_extents (abstract_classes : List AbstractClass)
    (all_classes : List (String × UMLClass)) : List AbstractClass :=
  abstract_classes.map (expandOne all_classes)

/-! ## Generator (`src/generator/__init__.py`) -/

/-- Stable insertion for the Python `list.sort(key=relevance, reverse=True)`:
a candidate is placed before the first strictly smaller score, after equal
scores. -/
def insertByScoreDesc (x : AbstractClass) : List AbstractClass → List AbstractClass
  | [] => [x]
  | y :: ys =>
    if y.relevance_score < x.relevance_score then x :: y :: ys
    else y :: insertByScoreDesc x ys

/-- Python stable descending sort by `relevance_score`. -/
def sortByScoreDesc (l : List AbstractClass) : List AbstractClass :=
  l.foldl (fun acc x => insertByScoreDesc x acc) []

/-- First-occurrence list of suggested names (the iteration order of the
`name_groups` dict). -/
def groupNames (l : List AbstractClass) : List (Option String) :=
  l.foldl (fun acc c => if c.suggested_name ∈ acc then acc else acc ++ [c.suggested_name]) []

/-- Python `list(set(xs))` where the set was filled from `xs` in order,
rendered deterministically as first-occurrence dedup (set enumeration order
is unspecified in Python). -/
def setOfList (xs : List String) : List String := xs.foldl (fun acc x => setAdd x acc) []

/-- Merging one duplicate-name group: sort by score (highest first), keep the
head as base, replace its extent/intent by the union over the whole group
(`merged_extent` starts from the base and is updated with `classes[1:]`). -/
def mergeGroup (group : List AbstractClass) : AbstractClass :=
  match sortByScoreDesc group with
  | [] => { extent := [], intent := [] }
  | base :: restSorted =>
    { base with
      extent := setOfList (base.extent ++ (restSorted.map (fun c => c.extent)).flatten),
      intent := setOfList (base.intent ++ (restSorted.map (fun c => c.intent)).flatten) }

/-- `PlantUMLGenerator._deduplicate_abstract_class_names`: group by suggested
name (dict order = first occurrence), keep singletons, merge larger groups. -/
def deduplicate_abstract_class_names (abstract_classes : List AbstractClass) :
    List AbstractClass :=
  (groupNames abstract_classes).map fun n =>
    match abstract_classes.filter (fun c => c.suggested_name = n) with
    | [single] => single
    | group => mergeGroup group

/-- `PlantUMLGenerator._build_inheritance_map` as the function from class
names to inherited feature sets (Python materializes it as a dict with
default `set()` via `.get(class_name, set())`): each class in a candidate
extent accumulates that candidate's intent. -/
def build_inheritance_map (abstract_classes : List AbstractClass) : String → List String :=
  abstract_classes.foldl
    (fun m ac => fun n => if n ∈ ac.extent then (ac.intent.foldl (fun s f => setAdd f s) (m n)) else m n)
    (fun _ => [])

/-- `PlantUMLGenerator._generate_class`: the block header, the attributes not
in the inherited feature set, the methods not in it, the closing brace. -/
def generate_class (uml_class : UMLClass) (inherited_features : List String) : List String :=
  ("class " ++ uml_class.name ++ " \x7b") ::
    ((uml_class.attributes.filter (fun a => a ∉ inherited_features)).map (fun a => "  " ++ a) ++
     (uml_class.methods.filter (fun m => m ∉ inherited_features)).map (fun m => "  " ++ m) ++
     ["\x7d"])


/-! ## Specification-side definitions used to state the claims -/

/-- The specified extent score of a concept within a batch:
`|extent| / maxExtent`, with the guard yielding 0 when the batch maximum
is 0. -/
def specExtentScore (batch : List FormalConcept) (c : FormalConcept) : ℚ :=
  if (batch.map (fun x => x.extent.length)).max?.getD 0 = 0 then 0
  else (c.extent.length : ℚ) / (((batch.map (fun x => x.extent.length)).max?.getD 0 : ℕ) : ℚ)

/-- The specified intent score of a concept within a batch. -/
def specIntentScore (batch : List FormalConcept) (c : FormalConcept) : ℚ :=
  if (batch.map (fun x => x.intent.length)).max?.getD 0 = 0 then 0
  else (c.intent.length : ℚ) / (((batch.map (fun x => x.intent.length)).max?.getD 0 : ℕ) : ℚ)

/-- The feature `f` is in the union of the intents of every candidate whose
extent contains the entity name `n` (the inherited-feature set of the
specification). -/
def inherits_feature (abstract_classes : List AbstractClass) (n f : String) : Prop :=
  ∃ ac ∈ abstract_classes, n ∈ ac.extent ∧ f ∈ ac.intent

instance (acs : List AbstractClass) (n f : String) : Decidable (inherits_feature acs n f) := by
  unfold inherits_feature
  infer_instance

/-! ## Helper lemmas -/

theorem tryRel_step (k : String) (s : List Char) (rest : List (String × List Char))
    (line : List Char) :
    tryRelationshipSymbols ((k, s) :: rest) line =
      (match splitOnL s line with
       | [p0, p1] => (buildRelationship k p0 p1).map some
       | _ => tryRelationshipSymbols rest line) := rfl

theorem buildRelationship_type (k : String) (p0 p1 : List Char) (r : UMLRelationship)
    (h : buildRelationship k p0 p1 = .ok r) : r.relationship_type = k := by
  unfold buildRelationship at h
  split at h
  · exact absurd h (by simp)
  · split at h
    · exact absurd h (by simp)
    · injection h with h2
      subst h2
      rfl

theorem length_eq_two_shape {α : Type} (xs : List α) (h : xs.length = 2) :
    ∃ a b, xs = [a, b] := by
  match xs, h with
  | [a, b], _ => exact ⟨a, b, rfl⟩

theorem setAdd_mem (x y : String) (l : List String) :
    y ∈ setAdd x l ↔ y ∈ l ∨ y = x := by
  unfold setAdd
  split
  · constructor
    · exact Or.inl
    · rintro (h | rfl)
      · exact h
      · assumption
  · simp [or_comm]

theorem setAddFold_mem (l : List String) (s : List String) (f : String) :
    f ∈ l.foldl (fun a x => setAdd x a) s ↔ f ∈ s ∨ f ∈ l := by
  induction l generalizing s with
  | nil => simp
  | cons x xs ih =>
    simp only [List.foldl_cons, ih, setAdd_mem, List.mem_cons]
    tauto

/-! ## Claim C1 -/

/-- Claim C1 (code bug): the spec says no line ever aborts the parse, but a
relationship line whose right side is empty reaches
`target_part.split()[0]` on an empty token list and raises `IndexError`,
aborting the whole parse — both alone and in an otherwise well-formed
diagram. -/
theorem c1_parse_raises_on_empty_relationship_side :
    parse (toL "A --") = .error "list index out of range" ∧
    parse (toL "class A \x7b\n\x7d\nA --\nclass B \x7b\n\x7d") = .error "list index out of range" := by
  decide

/-! ## Claim C2 -/

/-- Claim C2 (counterexample): the line `a<|-->b<|--c` contains `<|--`, yet
the parser classifies it as an association: `<|--` occurs twice, so its split
has three parts, the `len(parts) == 2` guard fails, the loop falls through,
and `-->` matches first with exactly two parts. -/
theorem c2_precedence_counterexample :
    containsSub (toL "<|--") (toL "a<|-->b<|--c") = true ∧
    parse (toL "a<|-->b<|--c") =
      .ok ⟨[], [⟨"a", "b", "association", none, none, none⟩]⟩ := by
  decide

/-- Claim C2 (amended): classification follows the ordered symbol table with
first-match-wins among symbols that split the line into exactly two parts.
A line that `<|--` splits into exactly two parts (it occurs exactly once)
yields inheritance, never association; a line that `*--` splits into exactly
two parts yields inheritance or composition, never association or
aggregation; and when no earlier symbol splits the line in two, an `-->`
two-part split is used for the association — the arrow forms are matched
before the bare `--`. -/
theorem c2_precedence_amended :
    (∀ l r, (splitOnL (toL "<|--") l).length = 2 →
      parse_relationship l = .ok (some r) → r.relationship_type = "inheritance") ∧
    (∀ l r, (splitOnL (toL "*--") l).length = 2 →
      parse_relationship l = .ok (some r) →
      r.relationship_type = "inheritance" ∨ r.relationship_type = "composition") ∧
    (∀ l p0 p1,
      (splitOnL (toL "--|>") l).length ≠ 2 → (splitOnL (toL "<|--") l).length ≠ 2 →
      (splitOnL (toL "--*") l).length ≠ 2 → (splitOnL (toL "*--") l).length ≠ 2 →
      (splitOnL (toL "--o") l).length ≠ 2 → (splitOnL (toL "o--") l).length ≠ 2 →
      splitOnL (toL "-->") l = [p0, p1] →
      parse_relationship l = (buildRelationship "association" p0 p1).map some) := by
  refine ⟨?_, ?_, ?_⟩
  · intro l r h2 hp
    unfold parse_relationship relationship_symbols at hp
    rw [tryRel_step] at hp
    split at hp
    · rename_i p0 p1 _
      cases hb : buildRelationship "inheritance" p0 p1 with
      | error e => rw [hb] at hp; exact absurd hp (by simp [Except.map])
      | ok r2 =>
        rw [hb] at hp
        simp only [Except.map, Except.ok.injEq, Option.some.injEq] at hp
        subst hp
        exact buildRelationship_type _ _ _ _ hb
    · rw [tryRel_step] at hp
      split at hp
      · rename_i p0 p1 _
        cases hb : buildRelationship "inheritance" p0 p1 with
        | error e => rw [hb] at hp; exact absurd hp (by simp [Except.map])
        | ok r2 =>
          rw [hb] at hp
          simp only [Except.map, Except.ok.injEq, Option.some.injEq] at hp
          subst hp
          exact buildRelationship_type _ _ _ _ hb
      · rename_i hne
        obtain ⟨a, b, hab⟩ := length_eq_two_shape _ h2
        exact absurd hab (hne a b)
  · intro l r h2 hp
    unfold parse_relationship relationship_symbols at hp
    rw [tryRel_step] at hp
    split at hp
    · rename_i p0 p1 _
      cases hb : buildRelationship "inheritance" p0 p1 with
      | error e => rw [hb] at hp; exact absurd hp (by simp [Except.map])
      | ok r2 =>
        rw [hb] at hp
        simp only [Except.map, Except.ok.injEq, Option.some.injEq] at hp
        subst hp
        exact Or.inl (buildRelationship_type _ _ _ _ hb)
    · rw [tryRel_step] at hp
      split at hp
      · rename_i p0 p1 _
        cases hb : buildRelationship "inheritance" p0 p1 with
        | error e => rw [hb] at hp; exact absurd hp (by simp [Except.map])
        | ok r2 =>
          rw [hb] at hp
          simp only [Except.map, Except.ok.injEq, Option.some.injEq] at hp
          subst hp
          exact Or.inl (buildRelationship_type _ _ _ _ hb)
      · rw [tryRel_step] at hp
        split at hp
        · rename_i p0 p1 _
          cases hb : buildRelationship "composition" p0 p1 with
          | error e => rw [hb] at hp; exact absurd hp (by simp [Except.map])
          | ok r2 =>
            rw [hb] at hp
            simp only [Except.map, Except.ok.injEq, Option.some.injEq] at hp
            subst hp
            exact Or.inr (buildRelationship_type _ _ _ _ hb)
        · rw [tryRel_step] at hp
          split at hp
          · rename_i p0 p1 _
            cases hb : buildRelationship "composition" p0 p1 with
            | error e => rw [hb] at hp; exact absurd hp (by simp [Except.map])
            | ok r2 =>
              rw [hb] at hp
              simp only [Except.map, Except.ok.injEq, Option.some.injEq] at hp
              subst hp
              exact Or.inr (buildRelationship_type _ _ _ _ hb)
          · rename_i hne
            obtain ⟨a, b, hab⟩ := length_eq_two_shape _ h2
            exact absurd hab (hne a b)
  · intro l p0 p1 h1 h2 h3 h4 h5 h6 h7
    unfold parse_relationship relationship_symbols
    rw [tryRel_step]
    split
    · rename_i a b hab
      exact absurd (by rw [hab]; rfl) h1
    · rw [tryRel_step]
      split
      · rename_i a b hab
        exact absurd (by rw [hab]; rfl) h2
      · rw [tryRel_step]
        split
        · rename_i a b hab
          exact absurd (by rw [hab]; rfl) h3
        · rw [tryRel_step]
          split
          · rename_i a b hab
            exact absurd (by rw [hab]; rfl) h4
          · rw [tryRel_step]
            split
            · rename_i a b hab
              exact absurd (by rw [hab]; rfl) h5
            · rw [tryRel_step]
              split
              · rename_i a b hab
                exact absurd (by rw [hab]; rfl) h6
              · rw [tryRel_step]
                split
                · rename_i a b hab
                  rw [h7] at hab
                  injection hab with e1 e2
                  injection e2 with e2 _
                  rw [e1, e2]
                · rename_i hne
                  exact absurd h7 (hne p0 p1)

/-- Witness for the amended claim C2, at the lines `A <|-- B`, `A *-- B` and
`A --> B`. -/
theorem c2_precedence_amended_witness :
    (UMLRelationship.mk "A" "B" "inheritance" none none none).relationship_type
        = "inheritance" ∧
    ((UMLRelationship.mk "A" "B" "composition" none none none).relationship_type
        = "inheritance" ∨
      (UMLRelationship.mk "A" "B" "composition" none none none).relationship_type
        = "composition") ∧
    parse_relationship (toL "A --> B") =
      (buildRelationship "association" (toL "A ") (toL " B")).map some :=
  ⟨c2_precedence_amended.1 (toL "A <|-- B") ⟨"A", "B", "inheritance", none, none, none⟩
      (by decide) (by decide),
   c2_precedence_amended.2.1 (toL "A *-- B") ⟨"A", "B", "composition", none, none, none⟩
      (by decide) (by decide),
   c2_precedence_amended.2.2 (toL "A --> B") (toL "A ") (toL " B")
      (by decide) (by decide) (by decide) (by decide) (by decide) (by decide) (by decide)⟩

theorem dictSet_stereo (k : String) (v : UMLClass) (l : List (String × UMLClass))
    (hv : v.stereotypes = []) (h : ∀ p ∈ l, (p : String × UMLClass).2.stereotypes = []) :
    ∀ p ∈ dictSet k v l, p.2.stereotypes = [] := by
  induction l with
  | nil =>
    intro p hp
    simp only [dictSet, List.mem_singleton] at hp
    subst hp
    exact hv
  | cons q rest ih =>
    intro p hp
    obtain ⟨k2, v2⟩ := q
    simp only [dictSet] at hp
    split at hp
    · rcases List.mem_cons.mp hp with rfl | hmem
      · exact hv
      · exact h p (List.mem_cons_of_mem _ hmem)
    · rcases List.mem_cons.mp hp with rfl | hmem
      · exact h _ (List.mem_cons_self _ _)
      · exact ih (fun q hq => h q (List.mem_cons_of_mem _ hq)) p hmem

theorem dictModify_stereo (k : String) (f : UMLClass → UMLClass)
    (l : List (String × UMLClass)) (hf : ∀ c, (f c).stereotypes = c.stereotypes)
    (h : ∀ p ∈ l, (p : String × UMLClass).2.stereotypes = []) :
    ∀ p ∈ dictModify k f l, p.2.stereotypes = [] := by
  induction l with
  | nil => intro p hp; simp [dictModify] at hp
  | cons q rest ih =>
    intro p hp
    obtain ⟨k2, v2⟩ := q
    simp only [dictModify] at hp
    split at hp
    · rcases List.mem_cons.mp hp with rfl | hmem
      · simpa [hf] using h _ (List.mem_cons_self _ _)
      · exact h p (List.mem_cons_of_mem _ hmem)
    · rcases List.mem_cons.mp hp with rfl | hmem
      · exact h _ (List.mem_cons_self _ _)
      · exact ih (fun q hq => h q (List.mem_cons_of_mem _ hq)) p hmem

theorem parse_class_member_stereo (cname : String) (line : List Char)
    (classes : List (String × UMLClass))
    (h : ∀ p ∈ classes, (p : String × UMLClass).2.stereotypes = []) :
    ∀ p ∈ parse_class_member cname line classes, p.2.stereotypes = [] := by
  unfold parse_class_member
  split
  · exact dictModify_stereo _ _ _ (fun c => rfl) h
  · exact dictModify_stereo _ _ _ (fun c => rfl) h

theorem parse_class_declaration_stereo (line : List Char)
    (classes : List (String × UMLClass)) (nm : String)
    (classes2 : List (String × UMLClass))
    (h : ∀ p ∈ classes, (p : String × UMLClass).2.stereotypes = [])
    (hok : parse_class_declaration line classes = .ok (nm, classes2)) :
    ∀ p ∈ classes2, p.2.stereotypes = [] := by
  unfold parse_class_declaration at hok
  split at hok
  · exact absurd hok (by simp)
  · simp only [Except.ok.injEq, Prod.mk.injEq] at hok
    obtain ⟨rfl, rfl⟩ := hok
    exact dictSet_stereo _ _ _ rfl h

theorem parseLinesGo_stereo :
    ∀ (lines : List (List Char)) (classes : List (String × UMLClass))
      (rels : List UMLRelationship) (cur : Option String) (m : ParseResult),
      (∀ p ∈ classes, (p : String × UMLClass).2.stereotypes = []) →
      parseLinesGo lines classes rels cur = .ok m →
      ∀ p ∈ m.classes, p.2.stereotypes = [] := by
  intro lines
  induction lines with
  | nil =>
    intro classes rels cur m h hok
    simp only [parseLinesGo, Except.ok.injEq] at hok
    subst hok
    exact h
  | cons rawLine rest ih =>
    intro classes rels cur m h hok
    simp only [parseLinesGo] at hok
    split at hok
    · exact ih _ _ _ _ h hok
    · split at hok
      · split at hok
        · exact absurd hok (by simp)
        · rename_i nm2 cls2 hdec
          exact ih _ _ _ _
            (parse_class_declaration_stereo _ _ nm2 cls2 h hdec) hok
      · split at hok
        · exact ih _ _ _ _ h hok
        · split at hok
          · exact ih _ _ _ _ (parse_class_member_stereo _ _ _ h) hok
          · split at hok
            · split at hok
              · exact absurd hok (by simp)
              · exact ih _ _ _ _ h hok
              · exact ih _ _ _ _ h hok
            · exact ih _ _ _ _ h hok

/-! ## Claim C9 -/

/-- Claim C9: whenever `PlantUMLParser.parse` returns a model, every parsed
class carries an empty stereotype list — no parsing path ever populates the
`stereotypes` field. -/
theorem c9_stereotypes_always_empty (input : List Char) (m : ParseResult)
    (h : parse input = .ok m) : ∀ p ∈ m.classes, p.2.stereotypes = [] := by
  unfold parse at h
  exact parseLinesGo_stereo _ _ _ _ _ (by simp) h

/-- Witness for claim C9 at the diagram `class A {` + `+x` + `}`. -/
theorem c9_stereotypes_witness :
    (("A", (⟨"A", ["+x"], [], []⟩ : UMLClass)) : String × UMLClass).2.stereotypes = [] :=
  c9_stereotypes_always_empty (toL "class A \x7b\n+x\n\x7d")
    ⟨[("A", ⟨"A", ["+x"], [], []⟩)], []⟩ (by decide) _ (by decide)

/-! ## Claim C10 -/

/-- Claim C10: `filter_relevant_concepts` is read-only — it returns a new
list while the analyzer object, and in particular its stored concept list
with every concept value, is unchanged; the result is a sublist of the
stored concepts, and filtering again on the post-state with any other
thresholds is the same as filtering the original analyzer. -/
theorem c10_filter_is_read_only (s : FCAAnalyzer) (min_relevance : ℚ)
    (min_extent_size : ℕ) :
    (filter_relevant_concepts s min_relevance min_extent_size).2 = s ∧
    (filter_relevant_concepts s min_relevance min_extent_size).2.concepts = s.concepts ∧
    List.Sublist (filter_relevant_concepts s min_relevance min_extent_size).1 s.concepts ∧
    (∀ r2 e2, filter_relevant_concepts
        (filter_relevant_concepts s min_relevance min_extent_size).2 r2 e2 =
      filter_relevant_concepts s r2 e2) :=
  ⟨rfl, rfl, List.filter_sublist _, fun _ _ => rfl⟩

/-! ## Claim C4 -/

/-- Claim C4 (code bug): `_step_create_abstract_classes` builds
`AbstractClass(extent=..., intent=...)` without passing the concept's
relevance score, so the candidate keeps the dataclass default `0.0` instead
of the originating concept's score (here 75). -/
theorem c4_relevance_score_not_copied :
    create_abstract_classes [⟨["A", "B"], ["x"], 75⟩] =
      [⟨["A", "B"], ["x"], none, 0, 0⟩] ∧
    (⟨["A", "B"], ["x"], none, 0, 0⟩ : AbstractClass).relevance_score ≠
      (⟨["A", "B"], ["x"], 75⟩ : FormalConcept).relevance_score := by
  constructor
  · rfl
  · decide

/-! ## Claim C7 -/

/-- Claim C7: merging three candidates named `Manager` with scores 50, 75, 60
and disjoint extents yields a single `Manager` candidate with score 75 whose
extent is the union of the three extents (as a set) and whose intent is the
union of the three intents. -/
theorem c7_merge_by_name :
    deduplicate_abstract_class_names
      [⟨["E1", "E2"], ["i1"], some "Manager", 0, 50⟩,
       ⟨["E3", "E4"], ["i2"], some "Manager", 0, 75⟩,
       ⟨["E5"], ["i3"], some "Manager", 0, 60⟩] =
      [⟨["E3", "E4", "E5", "E1", "E2"], ["i2", "i3", "i1"], some "Manager", 0, 75⟩] ∧
    (⟨["E3", "E4", "E5", "E1", "E2"], ["i2", "i3", "i1"], some "Manager", 0, 75⟩ :
        AbstractClass).suggested_name = some "Manager" ∧
    (⟨["E3", "E4", "E5", "E1", "E2"], ["i2", "i3", "i1"], some "Manager", 0, 75⟩ :
        AbstractClass).relevance_score = 75 ∧
    List.Perm (⟨["E3", "E4", "E5", "E1", "E2"], ["i2", "i3", "i1"], some "Manager", 0, 75⟩ :
        AbstractClass).extent ["E1", "E2", "E3", "E4", "E5"] ∧
    List.Perm (⟨["E3", "E4", "E5", "E1", "E2"], ["i2", "i3", "i1"], some "Manager", 0, 75⟩ :
        AbstractClass).intent ["i1", "i2", "i3"] := by
  refine ⟨by decide, rfl, rfl, by decide, by decide⟩

/-! ## Claim C3 -/

/-- Claim C3 (code bug): the internal FCA fallback cannot read the context
file that `export_for_fca` actually writes. For a model with one class `Dog`
owning one attribute, the export produces an empty first header cell and an
`"X"` presence mark; the fallback then raises `KeyError` looking up the
`object` column. Even with the header repaired to `object`, the `"X"` marks
match neither `"True"` nor `"1"`, so no concept is ever produced. -/
theorem c3_fallback_crashes_on_exported_context :
    export_for_fca [("Dog", ⟨"Dog", ["+name : String"], [], []⟩)] =
      [["", "+name : String"], ["Dog", "X"]] ∧
    fallback_fca_analysis (export_for_fca [("Dog", ⟨"Dog", ["+name : String"], [], []⟩)]) =
      .error "KeyError: object" ∧
    fallback_fca_analysis [["object", "+name : String"], ["Dog", "X"]] = .ok [] := by
  decide

/-! ## Claim C6 -/

/-- Claim C6: extent expansion is complete and monotone. For every candidate
in the batch, its expanded record (the batch pass maps `expandOne` over the
candidates) contains the name of every class whose feature set
(attributes ∪ methods, exact strings) is a superset of the candidate's
intent, and retains every name present before expansion. -/
theorem c6_expansion_complete_and_monotone (all_classes : List (String × UMLClass))
    (acs : List AbstractClass) (ac : AbstractClass) (hmem : ac ∈ acs) :
    expandOne all_classes ac ∈ expand_abstract_class_extents acs all_classes ∧
    (∀ p ∈ all_classes, (∀ f ∈ ac.intent, f ∈ classFeatures p.2) →
      p.1 ∈ (expandOne all_classes ac).extent) ∧
    (∀ x ∈ ac.extent, x ∈ (expandOne all_classes ac).extent) := by
  refine ⟨?_, ?_, ?_⟩
  · unfold expand_abstract_class_extents
    exact List.mem_map.mpr ⟨ac, hmem, rfl⟩
  · intro p hp hsub
    unfold expandOne
    simp only [List.mem_append]
    by_cases hin : p.1 ∈ ac.extent
    · exact Or.inl hin
    · right
      refine List.mem_map.mpr ⟨p, List.mem_filter.mpr ⟨hp, ?_⟩, rfl⟩
      simp only [decide_eq_true_eq]
      exact ⟨hin, by simpa [intentSubsetOf, List.all_eq_true, decide_eq_true_eq] using hsub⟩
  · intro x hx
    unfold expandOne
    exact List.mem_append_left _ hx

/-- Witness for claim C6: a `Truck` class whose features strictly contain the
candidate intent `["+wheels"]` is added to the extent, and the original
member `Car` stays. -/
theorem c6_expansion_witness :
    ("Truck" : String) ∈
      (expandOne [("Truck", ⟨"Truck", ["+wheels", "+engine"], [], []⟩)]
        ⟨["Car"], ["+wheels"], none, 0, 0⟩).extent ∧
    ("Car" : String) ∈
      (expandOne [("Truck", ⟨"Truck", ["+wheels", "+engine"], [], []⟩)]
        ⟨["Car"], ["+wheels"], none, 0, 0⟩).extent :=
  ⟨(c6_expansion_complete_and_monotone [("Truck", ⟨"Truck", ["+wheels", "+engine"], [], []⟩)]
        [⟨["Car"], ["+wheels"], none, 0, 0⟩] ⟨["Car"], ["+wheels"], none, 0, 0⟩
        (by decide)).2.1
      ("Truck", ⟨"Truck", ["+wheels", "+engine"], [], []⟩) (by decide) (by decide),
   (c6_expansion_complete_and_monotone [("Truck", ⟨"Truck", ["+wheels", "+engine"], [], []⟩)]
        [⟨["Car"], ["+wheels"], none, 0, 0⟩] ⟨["Car"], ["+wheels"], none, 0, 0⟩
        (by decide)).2.2 "Car" (by decide)⟩

/-! ## Claim C8 -/

theorem inheritsFold_mem (acs : List AbstractClass) (m0 : String → List String)
    (n f : String) :
    f ∈ (acs.foldl
        (fun m ac => fun x =>
          if x ∈ ac.extent then (ac.intent.foldl (fun s g => setAdd g s) (m x)) else m x)
        m0) n ↔
      f ∈ m0 n ∨ inherits_feature acs n f := by
  induction acs generalizing m0 with
  | nil => simp [inherits_feature]
  | cons ac acs ih =>
    simp only [List.foldl_cons, ih]
    have hstep :
        f ∈ (if n ∈ ac.extent then (ac.intent.foldl (fun s g => setAdd g s) (m0 n)) else m0 n) ↔
          f ∈ m0 n ∨ (n ∈ ac.extent ∧ f ∈ ac.intent) := by
      split
      · rename_i hn
        rw [setAddFold_mem]
        tauto
      · rename_i hn
        tauto
    have hcons : inherits_feature (ac :: acs) n f ↔
        (n ∈ ac.extent ∧ f ∈ ac.intent) ∨ inherits_feature acs n f := by
      simp [inherits_feature]
    rw [hstep, hcons]
    tauto

theorem build_inheritance_map_mem (acs : List AbstractClass) (n f : String) :
    f ∈ build_inheritance_map acs n ↔ inherits_feature acs n f := by
  unfold build_inheritance_map
  rw [inheritsFold_mem]
  simp

/-- Claim C8: the generated class block of an entity, given the inheritance
map built from the final candidates, lists exactly its attributes and then
its methods, in declaration order, that are NOT in the union of the intents
of every candidate whose extent contains the entity. -/
theorem c8_inherited_feature_suppression (acs : List AbstractClass) (cls : UMLClass) :
    generate_class cls (build_inheritance_map acs cls.name) =
      ("class " ++ cls.name ++ " \x7b") ::
        ((cls.attributes.filter (fun a => decide (¬ inherits_feature acs cls.name a))).map
            (fun a => "  " ++ a) ++
         (cls.methods.filter (fun m => decide (¬ inherits_feature acs cls.name m))).map
            (fun m => "  " ++ m) ++ ["\x7d"]) := by
  unfold generate_class
  have ha : cls.attributes.filter (fun a => a ∉ build_inheritance_map acs cls.name) =
      cls.attributes.filter (fun a => decide (¬ inherits_feature acs cls.name a)) :=
    List.filter_congr (fun x _ =>
      decide_eq_decide.mpr (not_congr (build_inheritance_map_mem acs cls.name x)))
  have hm : cls.methods.filter (fun m => m ∉ build_inheritance_map acs cls.name) =
      cls.methods.filter (fun m => decide (¬ inherits_feature acs cls.name m)) :=
    List.filter_congr (fun x _ =>
      decide_eq_decide.mpr (not_congr (build_inheritance_map_mem acs cls.name x)))
  rw [ha, hm]

/-! ## Claim C5 -/

/-- Claim C5: on a non-empty batch, scoring assigns every concept the
relevance `(|extent|/maxExtent) * (|intent|/maxIntent) * 100` with the
batch maxima and the zero-maximum guard; the filter returns exactly the
stored concepts with score `≥ min_relevance` and extent size
`≥ min_extent_size`; and a concept exactly at both boundaries is included. -/
theorem c5_scoring_and_inclusive_filter (cs : List FormalConcept) (hne : cs ≠ [])
    (min_relevance : ℚ) (min_extent_size : ℕ) (path : String) :
    (calculate_relevance_scores cs = cs.map (fun c =>
        { c with relevance_score := specExtentScore cs c * specIntentScore cs c * 100 })) ∧
    (∀ c, c ∈ (filter_relevant_concepts ⟨path, calculate_relevance_scores cs⟩
          min_relevance min_extent_size).1 ↔
        c ∈ calculate_relevance_scores cs ∧ min_relevance ≤ c.relevance_score ∧
          min_extent_size ≤ c.extent.length) ∧
    (∀ c ∈ calculate_relevance_scores cs, c.relevance_score = min_relevance →
      c.extent.length = min_extent_size →
      c ∈ (filter_relevant_concepts ⟨path, calculate_relevance_scores cs⟩
          min_relevance min_extent_size).1) := by
  have hiff : ∀ c, c ∈ (filter_relevant_concepts ⟨path, calculate_relevance_scores cs⟩
        min_relevance min_extent_size).1 ↔
      c ∈ calculate_relevance_scores cs ∧ min_relevance ≤ c.relevance_score ∧
        min_extent_size ≤ c.extent.length := by
    intro c
    unfold filter_relevant_concepts
    rw [List.mem_filter]
    simp [and_assoc]
  refine ⟨?_, hiff, fun c hc h1 h2 => (hiff c).mpr ⟨hc, le_of_eq h1.symm, le_of_eq h2.symm⟩⟩
  unfold calculate_relevance_scores
  rw [if_neg (by simpa using hne)]
  refine List.map_congr_left (fun c _ => ?_)
  unfold specExtentScore specIntentScore
  rcases Nat.eq_zero_or_pos ((cs.map (fun x => x.extent.length)).max?.getD 0) with h | h <;>
    rcases Nat.eq_zero_or_pos ((cs.map (fun x => x.intent.length)).max?.getD 0) with h2 | h2 <;>
      simp [h, h2, Nat.pos_iff_ne_zero, Nat.ne_of_gt]

/-- Witness for claim C5: a singleton batch where both maxima are 1, so the
only concept scores `(1/1)*(1/1)*100 = 100`, and with thresholds exactly 100
and 1 it is included by the filter. -/
theorem c5_boundary_witness :
    (⟨["A"], ["x"], 100⟩ : FormalConcept) ∈
      (filter_relevant_concepts
        ⟨"fca4j-cli-0.4.4.jar", calculate_relevance_scores [⟨["A"], ["x"], 0⟩]⟩ 100 1).1 :=
  (c5_scoring_and_inclusive_filter [⟨["A"], ["x"], 0⟩] (by simp) 100 1
      "fca4j-cli-0.4.4.jar").2.2 ⟨["A"], ["x"], 100⟩
    (by simp [calculate_relevance_scores]) rfl rfl
